import Mathlib

/-!
Shallow embedding of the FileOperate repository's storage / sandbox layer.

Embedded source files:
  * `src/smartagent/workspace.py` — `WORKSPACE_ROOT`, `resolve_workspace_path`
  * `src/smartagent/sandbox.py`   — `LocalSandboxBackend._apply_path_aliases`,
    `LocalSandboxBackend.execute`
  * `src/tools/filesystem.py`     — `move_workspace_file`, `delete_workspace_file`,
    `tree_view_workspace`

Modelling conventions:
  * An absolute filesystem path is a `List String` of components (`[]` is `/`).
    `Path.resolve()` is modelled lexically (no symlinks): `.` and empty
    components are dropped, `..` pops one component and is a no-op at `/`,
    exactly as `pathlib` canonicalises non-existing paths.
  * Text handled by the sandbox (commands, process output) is `List Char`;
    Python `len` on `str` counts code points, which matches `List.length`.
  * Python exceptions are an explicit error type; functions that mutate the
    filesystem return the post-state together with an `Except` result.
  * `subprocess.run` is an oracle parameter `run : List Char → ProcResult`
    giving the behaviour of the spawned shell for each command line.
  * All definitions are structurally recursive so that concrete instances
    evaluate inside the kernel (`decide` / `rfl`).
-/

/-! ## Definitions: the shallow embedding of the program -/

/-- Python exceptions raised by the embedded code. -/
inductive FsError where
  | valueError (msg : String)
  | fileNotFoundError (msg : String)
  | fileExistsError (msg : String)
  | shutilError (msg : String)
deriving DecidableEq, Repr

/-- `s.split("/")` on the character list of a Python string: splits on every
`'/'`, keeping empty pieces (so `"" ↦ [""]`, `"/a" ↦ ["", "a"]`). -/
def splitSlashAux (cur : List Char) : List Char → List String
  | [] => [String.mk cur.reverse]
  | c :: rest =>
    if c = '/' then String.mk cur.reverse :: splitSlashAux [] rest
    else splitSlashAux (c :: cur) rest

/-- Path-component decomposition of a Python string. -/
def splitSlash (s : String) : List String :=
  splitSlashAux [] s.data

/-- `s.startswith(pre)` for Python strings. -/
def pyStartsWith (s pre : String) : Bool :=
  pre.data.isPrefixOf s.data

/-- One pass of lexical path canonicalisation, as `Path.resolve()` does for
paths whose components do not exist on disk: `""` and `"."` are dropped,
`".."` removes the last component (staying at `/` when already there). -/
def normAux (acc : List String) : List String → List String
  | [] => acc
  | c :: rest =>
    if c = "" ∨ c = "." then normAux acc rest
    else if c = ".." then normAux acc.dropLast rest
    else normAux (acc ++ [c]) rest

/-- `sep.join(pieces)` for Python: the pieces concatenated with `sep`
between consecutive ones. -/
def joinWith (sep : List α) : List (List α) → List α
  | [] => []
  | [x] => x
  | x :: y :: xs => x ++ sep ++ joinWith sep (y :: xs)

/-- `str()` of an absolute `pathlib.Path` given as components (`[]` is `"/"`). -/
def renderPath (p : List String) : String :=
  String.mk ('/' :: joinWith ['/'] (p.map String.data))

/-- The model of `Path(s).resolve()` with working directory `cwd`
(an absolute, already canonical component list). -/
def pathResolve (cwd : List String) (s : String) : List String :=
  if pyStartsWith s "/" then normAux [] (splitSlash s)
  else normAux [] (cwd ++ splitSlash s)

/-- `WORKSPACE_ROOT = Path("./workspace").resolve()` from
`src/smartagent/workspace.py`, parametrised by the process working directory. -/
def WORKSPACE_ROOT (cwd : List String) : List String :=
  pathResolve cwd "./workspace"

/-- `resolve_workspace_path` from `src/smartagent/workspace.py`.

```
if virtual_path == "/workspace": return WORKSPACE_ROOT
if virtual_path.startswith("/workspace/"):
    relative = virtual_path[len("/workspace/"):]
    real_path = (WORKSPACE_ROOT / relative).resolve()
else:
    raise ValueError(f"Invalid workspace path: ...")
if not str(real_path).startswith(str(WORKSPACE_ROOT)):
    raise ValueError(f"Path traversal detected: ...")
return real_path
```

`Path / relative` discards the left operand when `relative` is absolute,
which the leading-slash branch on `relative` mirrors. -/
def resolve_workspace_path (cwd : List String) (virtual_path : String) :
    Except FsError (List String) :=
  if virtual_path = "/workspace" then .ok (WORKSPACE_ROOT cwd)
  else if pyStartsWith virtual_path "/workspace/" then
    let relative := String.mk (virtual_path.data.drop 11)
    let real_path :=
      if pyStartsWith relative "/" then normAux [] (splitSlash relative)
      else normAux [] (WORKSPACE_ROOT cwd ++ splitSlash relative)
    if pyStartsWith (renderPath real_path) (renderPath (WORKSPACE_ROOT cwd)) then
      .ok real_path
    else .error (.valueError ("Path traversal detected: " ++ virtual_path))
  else .error (.valueError ("Invalid workspace path: " ++ virtual_path))

/-- `p` is the root itself or lies strictly below it (component-wise):
the spec's notion of the canonical result being a descendant of the root. -/
def isDescendant (root p : List String) : Bool :=
  root.isPrefixOf p

/-- A filesystem state: regular files (absolute path to content) and the set
of existing directories.  A path "exists" when it is a listed file or
directory; well-formed states list every ancestor directory explicitly. -/
structure FS where
  files : List (List String × String)
  dirs : List (List String)
deriving DecidableEq, Repr

/-- `os.path.isdir` on the model state. -/
def FS.isDir (fs : FS) (p : List String) : Bool :=
  fs.dirs.contains p

/-- `os.path.isfile` on the model state. -/
def FS.isFile (fs : FS) (p : List String) : Bool :=
  fs.files.any (fun e => e.1 = p)

/-- `Path.exists()` on the model state. -/
def FS.existsPath (fs : FS) (p : List String) : Bool :=
  fs.isDir p || fs.isFile p

/-- All component lists obtained by truncating `p`, from `[]` up to `p`. -/
def prefixesOf (p : List String) : List (List String) :=
  (List.range (p.length + 1)).map (fun n => p.take n)

/-- `path.mkdir(parents=True, exist_ok=True)`: creates every missing ancestor;
raises `FileExistsError` when the path or one of its ancestors exists as a
regular file. -/
def mkdirParents (fs : FS) (p : List String) : Except FsError FS :=
  if (prefixesOf p).any fs.isFile then
    .error (.fileExistsError ("mkdir: a component of " ++ renderPath p ++ " is a file"))
  else .ok ⟨fs.files, prefixesOf p ++ fs.dirs⟩

/-- `path.mkdir(exist_ok=True)` (no `parents`): succeeds if the path is an
existing directory, raises `FileExistsError` if it exists as a file, raises
`FileNotFoundError` when the parent directory is missing. -/
def mkdirSimple (fs : FS) (p : List String) : Except FsError FS :=
  if fs.isDir p then .ok fs
  else if fs.isFile p then
    .error (.fileExistsError ("mkdir: " ++ renderPath p ++ " exists as a file"))
  else if fs.isDir p.dropLast then .ok ⟨fs.files, p :: fs.dirs⟩
  else .error (.fileNotFoundError ("mkdir: parent of " ++ renderPath p ++ " is missing"))

/-- `os.path.basename` / `PurePath.name` on a component list (`""` for `/`). -/
def lastComp : List String → String
  | [] => ""
  | [x] => x
  | _ :: y :: rest => lastComp (y :: rest)

/-- Renaming `src` to `dst` carries the whole subtree along. -/
def rebase (src dst p : List String) : List String :=
  if src.isPrefixOf p then dst ++ p.drop src.length else p

/-- `os.rename(src, real_dst)` as driven by `shutil.move`, on one
filesystem: a rename of a path onto itself is a no-op; renaming a directory
into its own subtree fails (`EINVAL`, surfaced by `shutil.move`'s
`_destinsrc` check as the `shutil.Error` "Cannot move a directory into
itself"); renaming a directory onto an existing regular file fails
(`os.rename` raises `ENOTDIR`, and `shutil.move`'s `copytree` fallback then
raises `FileExistsError` from `os.makedirs` on the existing file);
otherwise the rename succeeds, silently replacing an existing regular file
at the destination and carrying whole subtrees along. -/
def moveRename (fs : FS) (src real_dst : List String) : Except FsError FS :=
  if src = real_dst then .ok fs
  else if src.isPrefixOf real_dst then
    .error (.shutilError "Cannot move a directory into itself")
  else if fs.isDir src && fs.isFile real_dst then
    .error (.fileExistsError ("File exists: " ++ renderPath real_dst))
  else
    .ok ⟨(fs.files.filter (fun e => ¬ e.1 = real_dst)).map
           (fun e => (rebase src real_dst e.1, e.2)),
         fs.dirs.map (rebase src real_dst)⟩

/-- `shutil.move(src, dst)`: when `dst` is an existing directory the source
is moved inside it under its own basename (failing with a `shutil.Error` if
that entry already exists); otherwise the source is renamed to `dst`. -/
def shutilMove (fs : FS) (src dst : List String) : Except FsError FS :=
  if fs.isDir dst then
    let real_dst := dst ++ [lastComp src]
    if fs.existsPath real_dst then
      .error (.shutilError
        ("Destination path " ++ renderPath real_dst ++ " already exists"))
    else moveRename fs src real_dst
  else moveRename fs src dst

/-- Return value of `move_workspace_file`. -/
structure MoveResult where
  status : String
  moveFrom : String
  moveTo : String
deriving DecidableEq, Repr

/-- `move_workspace_file` from `src/tools/filesystem.py`:

```
src_real = resolve_workspace_path(source_path)
dst_real = resolve_workspace_path(destination_path)
if not src_real.exists(): raise FileNotFoundError(f"Source not found: ...")
if dst_real.exists(): raise FileExistsError(f"Destination already exists: ...")
dst_real.parent.mkdir(parents=True, exist_ok=True)
shutil.move(str(src_real), str(dst_real))
return {"status": "moved", "from": source_path, "to": destination_path}
```

The post-state is returned together with the result, since the parent
directories created by `mkdir` persist even when `shutil.move` then fails. -/
def move_workspace_file (cwd : List String) (fs : FS)
    (source_path destination_path : String) : FS × Except FsError MoveResult :=
  match resolve_workspace_path cwd source_path with
  | .error e => (fs, .error e)
  | .ok src_real =>
    match resolve_workspace_path cwd destination_path with
    | .error e => (fs, .error e)
    | .ok dst_real =>
      if ¬ fs.existsPath src_real then
        (fs, .error (.fileNotFoundError ("Source not found: " ++ source_path)))
      else if fs.existsPath dst_real then
        (fs, .error (.fileExistsError ("Destination already exists: " ++ destination_path)))
      else
        match mkdirParents fs dst_real.dropLast with
        | .error e => (fs, .error e)
        | .ok fs1 =>
          match shutilMove fs1 src_real dst_real with
          | .error e => (fs1, .error e)
          | .ok fs2 => (fs2, .ok ⟨"moved", source_path, destination_path⟩)

/-- Index of the last `'.'` in a character list (`str.rfind('.')`,
`none` when absent). -/
def rfindDot : List Char → Option Nat
  | [] => none
  | c :: rest =>
    match rfindDot rest with
    | some i => some (i + 1)
    | none => if c = '.' then some 0 else none

/-- `PurePath.suffix`: the part of the name from its last dot, provided that
dot is neither the first nor the last character. -/
def pySuffix (name : String) : String :=
  match rfindDot name.data with
  | some i =>
    if 0 < i ∧ i + 1 < name.data.length then String.mk (name.data.drop i) else ""
  | none => ""

/-- `PurePath.stem`: the name with `pySuffix` removed. -/
def pyStem (name : String) : String :=
  match rfindDot name.data with
  | some i =>
    if 0 < i ∧ i + 1 < name.data.length then String.mk (name.data.take i) else name
  | none => name

/-- Return value of `delete_workspace_file`. -/
structure DeleteResult where
  status : String
  original_path : String
  trash_path : String
deriving DecidableEq, Repr

/-- `delete_workspace_file` from `src/tools/filesystem.py`:

```
target_real = resolve_workspace_path(virtual_path)
if not target_real.exists(): raise FileNotFoundError(f"File not found: ...")
trash_dir = WORKSPACE_ROOT / ".trash"
trash_dir.mkdir(exist_ok=True)
timestamp = int(time.time())
trash_name = f"{target_real.stem}_{timestamp}{target_real.suffix}"
trash_path = trash_dir / trash_name
shutil.move(str(target_real), str(trash_path))
return {"status": "deleted (moved to trash)", "original_path": virtual_path,
        "trash_path": f"/workspace/.trash/{trash_name}"}
```

`int(time.time())` is the parameter `ts` (whole seconds). -/
def delete_workspace_file (cwd : List String) (fs : FS) (ts : Nat)
    (virtual_path : String) : FS × Except FsError DeleteResult :=
  match resolve_workspace_path cwd virtual_path with
  | .error e => (fs, .error e)
  | .ok target_real =>
    if ¬ fs.existsPath target_real then
      (fs, .error (.fileNotFoundError ("File not found: " ++ virtual_path)))
    else
      let trash_dir := WORKSPACE_ROOT cwd ++ [".trash"]
      match mkdirSimple fs trash_dir with
      | .error e => (fs, .error e)
      | .ok fs1 =>
        let name := lastComp target_real
        let trash_name := pyStem name ++ "_" ++ toString ts ++ pySuffix name
        let trash_path := trash_dir ++ [trash_name]
        match shutilMove fs1 target_real trash_path with
        | .error e => (fs1, .error e)
        | .ok fs2 =>
          (fs2, .ok ⟨"deleted (moved to trash)", virtual_path,
                     "/workspace/.trash/" ++ trash_name⟩)

/-- Working directory used by the concrete examples. -/
def cwd0 : List String := ["home", "user"]

/-- The workspace root for `cwd0`: `/home/user/workspace`. -/
def root0 : List String := ["home", "user", "workspace"]

/-- Two files with the same stem and suffix in different directories. -/
def fsTwoF : FS :=
  ⟨[(root0 ++ ["x", "f.txt"], "one"), (root0 ++ ["y", "f.txt"], "two")],
   [[], ["home"], ["home", "user"], root0, root0 ++ ["x"], root0 ++ ["y"]]⟩

/-- Destination file present, source absent. -/
def fsDst : FS :=
  ⟨[(root0 ++ ["dst.txt"], "d")], [[], ["home"], ["home", "user"], root0]⟩

/-- One workspace file, used to exercise a successful move. -/
def fsMv : FS :=
  ⟨[(root0 ++ ["a.txt"], "x")], [[], ["home"], ["home", "user"], root0]⟩

/-- A regular file `x/f.txt` and a directory `y/f.txt` (holding one file),
whose same-second trash entries collide. -/
def fsDirF : FS :=
  ⟨[(root0 ++ ["x", "f.txt"], "one"),
    (root0 ++ ["y", "f.txt", "inner.txt"], "z")],
   [[], ["home"], ["home", "user"], root0, root0 ++ ["x"], root0 ++ ["y"],
    root0 ++ ["y", "f.txt"]]⟩

/-- Characters removed by Python's `str.strip()` (ASCII whitespace). -/
def pyIsSpace (c : Char) : Bool :=
  c = ' ' ∨ c = '\t' ∨ c = '\n' ∨ c = '\r' ∨ c = '\x0b' ∨ c = '\x0c'

/-- `not command.strip()`: the command is empty or all whitespace. -/
def pyStripEmpty (s : List Char) : Bool :=
  s.all pyIsSpace

/-- Python `str.rstrip("/")` on a character list. -/
def rstripSlashes (s : List Char) : List Char :=
  (s.reverse.dropWhile (fun c => c = '/')).reverse

/-- `str.replace` with an empty pattern: the replacement is inserted before
every character and once at the end. -/
def pyReplaceEmptyPat (r : List Char) : List Char → List Char
  | [] => r
  | c :: rest => r ++ c :: pyReplaceEmptyPat r rest

/-- The scan of `str.replace` for a nonempty pattern `c :: p'`: at each
position either the pattern matches (it is consumed and `r` emitted) or one
character is kept; occurrences are non-overlapping, left to right. -/
def pyReplaceGo (c : Char) (p' r : List Char) : List Char → List Char
  | [] => []
  | d :: rest =>
    match (c :: p').isPrefixOf (d :: rest) with
    | true => r ++ pyReplaceGo c p' r (rest.drop p'.length)
    | false => d :: pyReplaceGo c p' r rest
termination_by s => s.length
decreasing_by
  · simp
    omega
  · simp

/-- Boolean substring test: `p` occurs somewhere in `s` (Python's `p in s`,
and the scan structure of `str.replace`). -/
def occursIn (p : List Char) : List Char → Bool
  | [] => p.isEmpty
  | d :: rest => p.isPrefixOf (d :: rest) || occursIn p rest

/-- Python `s.replace(p, r)`. -/
def pyReplace (s p r : List Char) : List Char :=
  match p with
  | [] => pyReplaceEmptyPat r s
  | c :: p' => pyReplaceGo c p' r s

/-- One step of `LocalSandboxBackend._apply_path_aliases`:

```
virtual_root = virtual_path.rstrip("/")
real_root = str(Path(real_path).resolve()).rstrip("/")
updated = updated.replace(f"{virtual_root}/", f"{real_root}/")
updated = updated.replace(virtual_root, real_root)
```
-/
def applyAlias (cwd : List String) (command : List Char)
    (al : String × String) : List Char :=
  let virtual_root := rstripSlashes al.1.data
  let real_root := rstripSlashes (renderPath (pathResolve cwd al.2)).data
  pyReplace (pyReplace command (virtual_root ++ ['/']) (real_root ++ ['/']))
    virtual_root real_root

/-- `LocalSandboxBackend._apply_path_aliases`: every configured alias is
applied to the command text in order; with no aliases the command is
returned unchanged. -/
def apply_path_aliases (cwd : List String) (aliases : List (String × String))
    (command : List Char) : List Char :=
  if aliases.isEmpty then command
  else aliases.foldl (applyAlias cwd) command

/-- Configuration of `LocalSandboxBackend` (`root_dir`, `virtual_mode` and
`env` only parametrise the spawned process, which the oracle absorbs).
The timeout is modelled in whole seconds. -/
structure LocalSandboxBackend where
  timeout : Nat
  max_output_bytes : Nat
  path_aliases : List (String × String)
deriving Repr

/-- Behaviour of `subprocess.run` for one command: either the hard timeout
expired (`subprocess.TimeoutExpired`) or the process completed with captured
stdout, stderr and return code. -/
inductive ProcResult where
  | timeout
  | completed (stdout stderr : List Char) (returncode : Int)
deriving DecidableEq, Repr

/-- `ExecuteResponse` of the deepagents backend protocol. -/
structure ExecuteResponse where
  output : List Char
  exit_code : Int
  truncated : Bool
deriving DecidableEq, Repr

/-- `f"Error: Command timed out after {self._timeout:.1f} seconds."` for a
whole-second timeout value (`:.1f` prints `120.0` for `120`). -/
def timeoutMessage (be : LocalSandboxBackend) : List Char :=
  ("Error: Command timed out after " ++ toString be.timeout ++ ".0 seconds.").data

/-- Output combination step of `execute`:

```
output_parts = []
if result.stdout: output_parts.append(result.stdout)
if result.stderr: output_parts.append(result.stderr)
output = "\n".join(output_parts) if output_parts else "<no output>"
```
-/
def combineOutput (stdout stderr : List Char) : List Char :=
  let output_parts := (if stdout.isEmpty then [] else [stdout])
    ++ (if stderr.isEmpty then [] else [stderr])
  if output_parts.isEmpty then "<no output>".data
  else joinWith ['\n'] output_parts

/-- `LocalSandboxBackend.execute` from `src/smartagent/sandbox.py`.
`run` is the oracle giving the behaviour of the shell spawned by
`subprocess.run` on the final (alias-rewritten) command line; `cwd` is the
process working directory used by `Path(...).resolve()`. -/
def execute (cwd : List String) (be : LocalSandboxBackend) (command : List Char)
    (run : List Char → ProcResult) : ExecuteResponse :=
  if pyStripEmpty command then
    ⟨"Error: execute expects a non-empty command string.".data, 1, false⟩
  else
    match run (apply_path_aliases cwd be.path_aliases command) with
    | .timeout => ⟨timeoutMessage be, 124, false⟩
    | .completed stdout stderr returncode =>
      let output := combineOutput stdout stderr
      if output.length > be.max_output_bytes then
        ⟨output.take be.max_output_bytes, returncode, true⟩
      else ⟨output, returncode, false⟩

/-- A directory entry as seen by `path.iterdir()`: a file or a directory
with its children. -/
inductive FTree where
  | file (name : String)
  | dir (name : String) (children : List FTree)
deriving Repr

/-- `p.name` of an entry. -/
def FTree.name : FTree → String
  | .file n => n
  | .dir n _ => n

/-- Insertion into a name-sorted sibling list. -/
def insertTree (t : FTree) : List FTree → List FTree
  | [] => [t]
  | u :: us => if t.name ≤ u.name then t :: u :: us else u :: insertTree t us

/-- `sorted(path.iterdir())`: inside one directory, comparing `Path` objects
compares the shared parent prefix and then the entry names, so the order is
by name. -/
def sortTrees : List FTree → List FTree
  | [] => []
  | t :: ts => insertTree t (sortTrees ts)

/-- The `walk` closure of `tree_view_workspace`, acting on a sibling list:

```
def walk(path, prefix="", depth=0):
    nonlocal count
    if depth > max_depth or count >= max_entries: return
    for p in sorted(path.iterdir()):
        if count >= max_entries: return
        lines.append(f"{prefix}{p.name}")
        count += 1
        if p.is_dir(): walk(p, prefix + "  ", depth + 1)
```

The recursive call's entry guard (`depth > max_depth or count >=
max_entries`) is inlined at the call site; the state is `(lines, count)`. -/

def walkGo (md me : Nat) (pre : String) (depth : Nat) :
    List FTree → (List String × Nat) → (List String × Nat)
  | [], st => st
  | p :: rest, st =>
    if st.2 ≥ me then st
    else
      let st1 := (st.1 ++ [pre ++ p.name], st.2 + 1)
      let st2 := match p with
        | FTree.dir _ cs =>
          if depth + 1 > md ∨ st1.2 ≥ me then st1
          else walkGo md me (pre ++ "  ") (depth + 1) (sortTrees cs) st1
        | FTree.file _ => st1
      walkGo md me pre depth rest st2
termination_by l st => (md + 1 - depth, l.length)

/-- The number of entries `walk` emits when the entry budget is unlimited:
every entry within the depth limit. -/
def countGo (md : Nat) (depth : Nat) : List FTree → Nat
  | [] => 0
  | p :: rest =>
    1 + (match p with
         | FTree.dir _ cs =>
           if depth + 1 > md then 0 else countGo md (depth + 1) (sortTrees cs)
         | FTree.file _ => 0)
      + countGo md depth rest
termination_by l => (md + 1 - depth, l.length)

/-- Entries listable within the depth limit, starting at the root's
children. -/
def countListable (md : Nat) (children : List FTree) : Nat :=
  countGo md 0 (sortTrees children)

/-- Return value of `tree_view_workspace`. -/
structure TreeResult where
  root : String
  max_depth : Nat
  entries : Nat
  tree : String
  truncated : Bool
deriving DecidableEq, Repr

/-- `tree_view_workspace` from `src/tools/filesystem.py`: the resolved
directory's listing is supplied as `content` (`none` when the path does not
exist, raising `FileNotFoundError`).  The initial `walk(root)` call checks
`depth > max_depth or count >= max_entries` first, hence the guard around
the `walkGo` call; the result reports `truncated = (count >= max_entries)`. -/
def tree_view_workspace (cwd : List String) (content : Option (List FTree))
    (virtual_path : String) (max_depth max_entries : Nat) :
    Except FsError TreeResult :=
  match resolve_workspace_path cwd virtual_path with
  | .error e => .error e
  | .ok root =>
    match content with
    | none => .error (.fileNotFoundError (renderPath root))
    | some children =>
      let st := if 0 > max_depth ∨ 0 ≥ max_entries then (([] : List String), 0)
                else walkGo max_depth max_entries "" 0 (sortTrees children) ([], 0)
      .ok ⟨virtual_path, max_depth, st.2,
           String.mk (joinWith ['\n'] (st.1.map String.data)),
           decide (st.2 ≥ max_entries)⟩

/-! ## Theorems -/

/-- Claim C1 (code bug): `resolve_workspace_path` is claimed to fail whenever
the canonicalised result is not a descendant of the workspace root.  With
working directory `/home/user` (root `/home/user/workspace`), the input
`/workspace/../workspace2/x` canonicalises to `/home/user/workspace2/x` —
a sibling of the root, not a descendant — yet the `str(...).startswith`
containment check accepts it and the function returns the escaped path. -/
theorem resolve_workspace_path_accepts_nondescendant :
    resolve_workspace_path ["home", "user"] "/workspace/../workspace2/x"
      = .ok ["home", "user", "workspace2", "x"]
    ∧ isDescendant (WORKSPACE_ROOT ["home", "user"])
        ["home", "user", "workspace2", "x"] = false := by
  constructor
  · rfl
  · rfl

/-- Claim C9: the trash entry name is `stem_<unix-seconds><suffix>`, so two
deletes of `/workspace/x/f.txt` and `/workspace/y/f.txt` in the same clock
second map to the same trash path `/workspace/.trash/f_100.txt`; the second
`shutil.move` silently overwrites the first entry and the content `"one"`
is no longer anywhere in the filesystem. -/
theorem delete_same_second_overwrites_trash_entry :
    (delete_workspace_file cwd0 fsTwoF 100 "/workspace/x/f.txt").2
      = .ok ⟨"deleted (moved to trash)", "/workspace/x/f.txt",
             "/workspace/.trash/f_100.txt"⟩
    ∧ (root0 ++ [".trash", "f_100.txt"], "one")
        ∈ (delete_workspace_file cwd0 fsTwoF 100 "/workspace/x/f.txt").1.files
    ∧ (delete_workspace_file cwd0
         (delete_workspace_file cwd0 fsTwoF 100 "/workspace/x/f.txt").1
         100 "/workspace/y/f.txt").2
      = .ok ⟨"deleted (moved to trash)", "/workspace/y/f.txt",
             "/workspace/.trash/f_100.txt"⟩
    ∧ (delete_workspace_file cwd0
         (delete_workspace_file cwd0 fsTwoF 100 "/workspace/x/f.txt").1
         100 "/workspace/y/f.txt").1.files.all
        (fun e => ¬ e.2 = "one") = true := by
  refine ⟨rfl, ?_, rfl, rfl⟩
  decide

/-- The same-second collision when the second target is a directory:
`os.rename` onto the existing trash file fails with `ENOTDIR` and the
`copytree` fallback raises `FileExistsError`, so the second delete fails
(unlike the file-onto-file case, which silently replaces). -/
theorem delete_directory_onto_trash_file_fails :
    (delete_workspace_file cwd0 fsDirF 100 "/workspace/x/f.txt").2
      = .ok ⟨"deleted (moved to trash)", "/workspace/x/f.txt",
             "/workspace/.trash/f_100.txt"⟩
    ∧ (delete_workspace_file cwd0
         (delete_workspace_file cwd0 fsDirF 100 "/workspace/x/f.txt").1
         100 "/workspace/y/f.txt").2
      = .error (.fileExistsError
          "File exists: /home/user/workspace/.trash/f_100.txt") := by
  exact ⟨rfl, rfl⟩

theorem prefixOf_bridge {α : Type _} [BEq α] [LawfulBEq α] {l₁ l₂ : List α} :
    l₁.isPrefixOf l₂ = true ↔ l₁ <+: l₂ :=
  List.isPrefixOf_iff_prefix

theorem prefixOf_false {α : Type _} [BEq α] [LawfulBEq α] {l₁ l₂ : List α} :
    l₁.isPrefixOf l₂ = false ↔ ¬ l₁ <+: l₂ := by
  rw [← prefixOf_bridge]
  cases h : l₁.isPrefixOf l₂ <;> simp [h]

theorem contains_bridge {α : Type _} [BEq α] [LawfulBEq α] {l : List α} {a : α} :
    l.contains a = true ↔ a ∈ l :=
  List.elem_iff

theorem mem_prefixesOf {q p : List String} : q ∈ prefixesOf p ↔ q <+: p := by
  unfold prefixesOf
  simp only [List.mem_map, List.mem_range]
  constructor
  · rintro ⟨n, -, rfl⟩
    exact List.take_prefix n p
  · intro h
    refine ⟨q.length, ?_, (List.prefix_iff_eq_take.mp h).symm⟩
    have := h.length_le
    omega

theorem normAux_append (l₁ l₂ acc : List String) :
    normAux acc (l₁ ++ l₂) = normAux (normAux acc l₁) l₂ := by
  induction l₁ generalizing acc with
  | nil => simp [normAux]
  | cons c rest ih =>
    simp only [List.cons_append, normAux]
    split
    · exact ih _
    · split
      · exact ih _
      · exact ih _

theorem WORKSPACE_ROOT_eq (cwd : List String) :
    WORKSPACE_ROOT cwd = normAux [] cwd ++ ["workspace"] := by
  unfold WORKSPACE_ROOT pathResolve
  have h1 : pyStartsWith "./workspace" "/" = false := rfl
  have h2 : splitSlash "./workspace" = [".", "workspace"] := rfl
  rw [h1, h2]
  simp only [Bool.false_eq_true, if_false]
  rw [normAux_append]
  simp [normAux]

theorem WORKSPACE_ROOT_ne_nil (cwd : List String) : WORKSPACE_ROOT cwd ≠ [] := by
  rw [WORKSPACE_ROOT_eq]; simp

theorem joinWith_concat_ne_nil {α : Type _} {sep z : List α} (ys : List (List α))
    (hz : z ≠ []) (hsep : sep ≠ []) : joinWith sep (ys ++ [z]) ≠ [] := by
  induction ys with
  | nil => simpa [joinWith]
  | cons x ys ih =>
    cases hys : ys ++ [z] with
    | nil => exact absurd hys (by simp)
    | cons y t =>
      rw [List.cons_append, hys, joinWith]
      simp [hsep]

theorem renderPath_data (p : List String) :
    (renderPath p).data = '/' :: joinWith ['/'] (p.map String.data) := rfl

theorem resolve_ok_render {cwd : List String} {vp : String} {p : List String}
    (h : resolve_workspace_path cwd vp = .ok p) :
    pyStartsWith (renderPath p) (renderPath (WORKSPACE_ROOT cwd)) = true := by
  unfold resolve_workspace_path at h
  split at h
  · cases h
    exact prefixOf_bridge.mpr (List.prefix_refl _)
  · split at h
    · dsimp only at h
      split at h <;> split at h <;>
        first
          | (cases h; assumption)
          | cases h
    · cases h

theorem resolve_ok_ne_nil {cwd : List String} {vp : String} {p : List String}
    (h : resolve_workspace_path cwd vp = .ok p) : p ≠ [] := by
  intro hnil
  subst hnil
  have hr := resolve_ok_render h
  unfold pyStartsWith at hr
  rw [renderPath_data, renderPath_data] at hr
  simp only [List.map_nil, joinWith] at hr
  have hJ : joinWith ['/'] ((WORKSPACE_ROOT cwd).map String.data) ≠ [] := by
    rw [WORKSPACE_ROOT_eq, List.map_append]
    exact joinWith_concat_ne_nil _ (by decide) (by decide)
  cases hJc : joinWith ['/'] ((WORKSPACE_ROOT cwd).map String.data) with
  | nil => exact hJ hJc
  | cons c cs => rw [hJc] at hr; simp [List.isPrefixOf] at hr

/-- Claim C5 counterexample: the claim says that whenever the destination
already exists the move fails with an already-exists error; but when the
source is missing too, `move_workspace_file` checks the source first and
raises `FileNotFoundError` instead, even though the destination exists. -/
theorem move_missing_source_beats_existing_destination :
    FS.existsPath fsDst (root0 ++ ["dst.txt"]) = true
    ∧ move_workspace_file cwd0 fsDst "/workspace/missing.txt" "/workspace/dst.txt"
      = (fsDst, .error (.fileNotFoundError "Source not found: /workspace/missing.txt")) := by
  exact ⟨rfl, rfl⟩

/-- Claim C5 (amended): for resolvable workspace paths whose source exists,
if the destination exists the move fails with `FileExistsError` and the
filesystem is untouched; if the destination does not exist (and neither path
sits inside the other, and no ancestor of the destination is a regular
file), the destination's parent directories are created and the source —
with its whole subtree — is moved to the destination. -/
theorem move_workspace_file_semantics
    (cwd : List String) (fs : FS) (sp dp : String) (s d : List String)
    (hs : resolve_workspace_path cwd sp = .ok s)
    (hd : resolve_workspace_path cwd dp = .ok d)
    (hex : fs.existsPath s = true) :
    (fs.existsPath d = true →
      move_workspace_file cwd fs sp dp
        = (fs, .error (.fileExistsError ("Destination already exists: " ++ dp))))
    ∧ (fs.existsPath d = false →
       (∀ q, q <+: d.dropLast → fs.isFile q = false) →
       s.isPrefixOf d = false →
       d.isPrefixOf s = false →
       ((move_workspace_file cwd fs sp dp).2 = .ok ⟨"moved", sp, dp⟩
        ∧ (∀ q, q <+: d.dropLast →
            (move_workspace_file cwd fs sp dp).1.isDir q = true)
        ∧ (∀ p c, (p, c) ∈ fs.files → s.isPrefixOf p = true →
            (d ++ p.drop s.length, c) ∈ (move_workspace_file cwd fs sp dp).1.files)
        ∧ (∀ c, (s, c) ∉ (move_workspace_file cwd fs sp dp).1.files))) := by
  constructor
  · intro hdex
    unfold move_workspace_file
    rw [hs, hd]
    simp [hex, hdex]
  · intro hdex hpar hpre hpre2
    have hdnil : d ≠ [] := resolve_ok_ne_nil hd
    have hany : (prefixesOf d.dropLast).any fs.isFile = false := by
      rw [List.any_eq_false]
      intro q hq
      rw [hpar q (mem_prefixesOf.mp hq)]
      simp
    have hnotdir : FS.isDir ⟨fs.files, prefixesOf d.dropLast ++ fs.dirs⟩ d = false := by
      rw [Bool.eq_false_iff]
      intro hc
      rcases List.mem_append.mp (contains_bridge.mp hc) with hm | hm
      · have h1 := (mem_prefixesOf.mp hm).length_le
        have h2 : d.dropLast.length = d.length - 1 := by simp
        have h3 : 0 < d.length := List.length_pos.mpr hdnil
        omega
      · have : fs.existsPath d = true := by
          unfold FS.existsPath FS.isDir
          rw [contains_bridge.mpr hm]
          simp
        rw [this] at hdex
        cases hdex
    have hsd : s ≠ d := by
      intro hEq
      rw [hEq, hdex] at hex
      cases hex
    have hnf : FS.isFile ⟨fs.files, prefixesOf d.dropLast ++ fs.dirs⟩ d = false := by
      have h2 := hdex
      unfold FS.existsPath at h2
      exact (Bool.or_eq_false_iff.mp h2).2
    have heq : move_workspace_file cwd fs sp dp
        = (⟨((⟨fs.files, prefixesOf d.dropLast ++ fs.dirs⟩ : FS).files.filter
               (fun e => ¬ e.1 = d)).map (fun e => (rebase s d e.1, e.2)),
            (⟨fs.files, prefixesOf d.dropLast ++ fs.dirs⟩ : FS).dirs.map (rebase s d)⟩,
           .ok ⟨"moved", sp, dp⟩) := by
      unfold move_workspace_file
      rw [hs, hd]
      simp only [hex, hdex, Bool.true_eq_false, not_true_eq_false, if_false,
        Bool.false_eq_true, if_true, ite_false, ite_true]
      unfold mkdirParents
      simp only [hany, Bool.false_eq_true, if_false]
      unfold shutilMove
      simp only [hnotdir, Bool.false_eq_true, if_false]
      unfold moveRename
      simp only [hsd, if_false, hpre, Bool.false_eq_true, hnf, Bool.and_false]
    rw [heq]
    refine ⟨rfl, ?_, ?_, ?_⟩
    · intro q hq
      have hq1 : rebase s d q = q := by
        unfold rebase
        have : s.isPrefixOf q = false := by
          rw [prefixOf_false]
          intro hsq
          exact (prefixOf_false.mp hpre) (hsq.trans (hq.trans ( List.dropLast_prefix d)))
        rw [this]
        simp
      apply contains_bridge.mpr
      simp only [List.mem_map]
      refine ⟨q, ?_, hq1⟩
      exact List.mem_append.mpr (Or.inl (mem_prefixesOf.mpr hq))
    · intro p c hpc hsp
      simp only [List.mem_map, List.mem_filter]
      refine ⟨(p, c), ⟨hpc, ?_⟩, ?_⟩
      · have hpd : ¬ p = d := by
          intro hEq
          exact (prefixOf_false.mp hpre) (hEq ▸ prefixOf_bridge.mp hsp)
        simp [hpd]
      · unfold rebase
        rw [hsp]
        simp
    · intro c hmem
      simp only [List.mem_map, List.mem_filter] at hmem
      obtain ⟨e, ⟨-, -⟩, hEq⟩ := hmem
      have h1 : rebase s d e.1 = s := congrArg Prod.fst hEq
      unfold rebase at h1
      by_cases hsp : s.isPrefixOf e.1 = true
      · rw [hsp] at h1
        simp only [if_true] at h1
        exact (prefixOf_false.mp hpre2) ⟨e.1.drop s.length, h1⟩
      · rw [Bool.eq_false_iff.mpr hsp] at h1
        simp only [Bool.false_eq_true, if_false] at h1
        rw [h1] at hsp
        exact hsp (prefixOf_bridge.mpr (List.prefix_refl s))

/-- Witness for `move_workspace_file_semantics` at a concrete input. -/
theorem move_workspace_file_semantics_witness :
    (move_workspace_file cwd0 fsMv "/workspace/a.txt" "/workspace/sub/b.txt").2
      = .ok ⟨"moved", "/workspace/a.txt", "/workspace/sub/b.txt"⟩ := by
  have h := move_workspace_file_semantics cwd0 fsMv "/workspace/a.txt"
      "/workspace/sub/b.txt" (root0 ++ ["a.txt"]) (root0 ++ ["sub", "b.txt"])
      rfl rfl rfl
  refine (h.2 rfl ?_ rfl rfl).1
  intro q hq
  have hmem : q ∈ prefixesOf ((root0 ++ ["sub", "b.txt"]).dropLast) :=
    mem_prefixesOf.mpr hq
  fin_cases hmem <;> rfl

/-- Claim C8: an empty or all-whitespace command is rejected immediately
with exit code 1 and an error message; the response does not depend on the
subprocess oracle at all, so no process is spawned.  (A non-string command
is unrepresentable in the typed embedding; the same guard covers it.) -/
theorem execute_rejects_empty_command
    (cwd : List String) (be : LocalSandboxBackend) (command : List Char)
    (run : List Char → ProcResult) (h : pyStripEmpty command = true) :
    execute cwd be command run
      = ⟨"Error: execute expects a non-empty command string.".data, 1, false⟩ := by
  unfold execute
  simp [h]

/-- Witness for `execute_rejects_empty_command` at a concrete input. -/
theorem execute_rejects_empty_command_witness :
    pyStripEmpty "   ".data = true
    ∧ execute ["home", "user"] ⟨120, 200000, []⟩ "   ".data
        (fun _ => .completed "x".data [] 0)
      = ⟨"Error: execute expects a non-empty command string.".data, 1, false⟩ :=
  ⟨rfl, execute_rejects_empty_command _ _ _ _ rfl⟩

/-- Claim C2 counterexample: exit code 124 does not imply a timeout — a
process that itself exits with status 124 (e.g. `exit 124`) completes
within the timeout and its code is passed through unchanged, so the
claimed "if and only if" fails. -/
theorem exit_code_124_without_timeout :
    ∃ (be : LocalSandboxBackend) (command : List Char)
      (run : List Char → ProcResult),
      (∀ c, run c ≠ ProcResult.timeout)
      ∧ (execute ["home", "user"] be command run).exit_code = 124 := by
  refine ⟨⟨120, 200000, []⟩, "exit 124".data,
    fun _ => .completed [] [] 124, fun c h => ProcResult.noConfusion h, rfl⟩

/-- Claim C2 (amended): for every valid (non-whitespace) command, if the
process fails to complete within the timeout the response is exactly the
descriptive timeout message with exit code 124 and `truncated = false` (no
partial process output); if the process completes, its own exit code is
passed through unchanged (which may itself be 124). -/
theorem execute_timeout_semantics
    (cwd : List String) (be : LocalSandboxBackend) (command : List Char)
    (run : List Char → ProcResult) (h : pyStripEmpty command = false) :
    (run (apply_path_aliases cwd be.path_aliases command) = .timeout →
      execute cwd be command run = ⟨timeoutMessage be, 124, false⟩)
    ∧ (∀ stdout stderr returncode,
        run (apply_path_aliases cwd be.path_aliases command)
          = .completed stdout stderr returncode →
        (execute cwd be command run).exit_code = returncode) := by
  constructor
  · intro ht
    unfold execute
    simp [h, ht]
  · intro stdout stderr returncode hc
    unfold execute
    simp only [h, Bool.false_eq_true, if_false, hc]
    split <;> rfl

/-- Witness for `execute_timeout_semantics` at a concrete input. -/
theorem execute_timeout_semantics_witness :
    pyStripEmpty "sleep 999".data = false
    ∧ execute ["home", "user"] ⟨120, 200000, []⟩ "sleep 999".data
        (fun _ => .timeout)
      = ⟨("Error: Command timed out after 120.0 seconds.").data, 124, false⟩ := by
  refine ⟨rfl, ?_⟩
  have h := (execute_timeout_semantics ["home", "user"] ⟨120, 200000, []⟩
      "sleep 999".data (fun _ => .timeout) rfl).1 rfl
  rw [h]
  rfl

/-- Claim C3: for a completed process, output longer than the configured
ceiling is truncated to exactly the ceiling with `truncated = true`, and
output at or below the ceiling is returned unmodified with
`truncated = false`; the process exit code is preserved in both cases. -/
theorem execute_output_bounding
    (cwd : List String) (be : LocalSandboxBackend) (command : List Char)
    (run : List Char → ProcResult) (h : pyStripEmpty command = false)
    (stdout stderr : List Char) (returncode : Int)
    (hr : run (apply_path_aliases cwd be.path_aliases command)
      = .completed stdout stderr returncode) :
    ((combineOutput stdout stderr).length > be.max_output_bytes →
      execute cwd be command run
        = ⟨(combineOutput stdout stderr).take be.max_output_bytes,
           returncode, true⟩
      ∧ (execute cwd be command run).output.length = be.max_output_bytes)
    ∧ ((combineOutput stdout stderr).length ≤ be.max_output_bytes →
      execute cwd be command run
        = ⟨combineOutput stdout stderr, returncode, false⟩) := by
  constructor
  · intro htr
    have heq : execute cwd be command run
        = ⟨(combineOutput stdout stderr).take be.max_output_bytes,
           returncode, true⟩ := by
      unfold execute
      simp [h, hr, htr]
    refine ⟨heq, ?_⟩
    rw [heq]
    simp only [List.length_take]
    omega
  · intro hle
    unfold execute
    simp only [h, Bool.false_eq_true, if_false, hr]
    have : ¬ (combineOutput stdout stderr).length > be.max_output_bytes := by
      omega
    simp [this]

/-- Witness for `execute_output_bounding` at a concrete input: a 10-char
combined output against a ceiling of 4. -/
theorem execute_output_bounding_witness :
    pyStripEmpty "echo x".data = false
    ∧ (combineOutput "abcdefghij".data []).length > 4
    ∧ execute ["home", "user"] ⟨120, 4, []⟩ "echo x".data
        (fun _ => .completed "abcdefghij".data [] 7)
      = ⟨"abcd".data, 7, true⟩ := by
  refine ⟨rfl, by decide, ?_⟩
  have h := ((execute_output_bounding ["home", "user"] ⟨120, 4, []⟩
      "echo x".data (fun _ => .completed "abcdefghij".data [] 7) rfl
      "abcdefghij".data [] 7 rfl).1 (by decide)).1
  rw [h]
  rfl

/-- The combined output blob is never the empty string (before bounding):
either it is the placeholder or it joins nonempty streams. -/
theorem combineOutput_ne_nil (stdout stderr : List Char) :
    combineOutput stdout stderr ≠ [] := by
  unfold combineOutput
  by_cases hso : stdout.isEmpty <;> by_cases hse : stderr.isEmpty <;>
    simp [hso, hse, joinWith] <;>
    intro hc
  · exact absurd hc (by simpa using hse)
  · exact absurd hc (by simpa using hso)

/-- Claim C7 counterexample: with a configured output ceiling of 0 bytes, a
completed command with empty stdout and stderr gets the placeholder
truncated away, and the response output is exactly the empty string — the
claim says the output is the placeholder and never the empty string. -/
theorem empty_streams_can_yield_empty_output :
    execute ["home", "user"] ⟨120, 0, []⟩ "true".data
        (fun _ => .completed [] [] 0)
      = ⟨[], 0, true⟩ := by
  rfl

/-- Claim C7 (amended): for every completed command, the pre-bounding
combined blob starts with stdout (when nonempty) and ends with stderr (when
nonempty), equals the placeholder `<no output>` exactly when both streams
are empty, and the response output is that blob truncated to the configured
ceiling — hence nonempty whenever the ceiling is at least 1 (in particular
at the default 200000). -/
theorem execute_output_combination
    (cwd : List String) (be : LocalSandboxBackend) (command : List Char)
    (run : List Char → ProcResult) (h : pyStripEmpty command = false)
    (stdout stderr : List Char) (returncode : Int)
    (hr : run (apply_path_aliases cwd be.path_aliases command)
      = .completed stdout stderr returncode) :
    (stdout = [] → stderr = [] → combineOutput stdout stderr = "<no output>".data)
    ∧ (combineOutput stdout stderr = "<no output>".data
        ∨ stdout ≠ [] ∨ stderr ≠ [])
    ∧ (stdout ≠ [] → stdout <+: combineOutput stdout stderr)
    ∧ (stderr ≠ [] → stderr <:+ combineOutput stdout stderr)
    ∧ (execute cwd be command run).output
        = (if (combineOutput stdout stderr).length > be.max_output_bytes
           then (combineOutput stdout stderr).take be.max_output_bytes
           else combineOutput stdout stderr)
    ∧ (1 ≤ be.max_output_bytes → (execute cwd be command run).output ≠ []) := by
  have hout : (execute cwd be command run).output
      = (if (combineOutput stdout stderr).length > be.max_output_bytes
         then (combineOutput stdout stderr).take be.max_output_bytes
         else combineOutput stdout stderr) := by
    unfold execute
    simp only [h, Bool.false_eq_true, if_false, hr]
    split <;> rfl
  refine ⟨?_, ?_, ?_, ?_, hout, ?_⟩
  · intro h1 h2
    subst h1
    subst h2
    rfl
  · by_cases h1 : stdout = []
    · by_cases h2 : stderr = []
      · subst h1; subst h2; exact Or.inl rfl
      · exact Or.inr (Or.inr h2)
    · exact Or.inr (Or.inl h1)
  · intro h1
    have h1' : stdout.isEmpty = false := by
      cases stdout with
      | nil => exact absurd rfl h1
      | cons a l => rfl
    rcases stderr with _ | ⟨b, t⟩
    · simp [combineOutput, h1', joinWith]
    · simp only [combineOutput, h1', Bool.false_eq_true, if_false,
        List.isEmpty_cons, List.cons_append, List.nil_append,
        List.isEmpty_nil, joinWith]
      exact ⟨'\n' :: b :: t, by simp⟩
  · intro h2
    have h2' : stderr.isEmpty = false := by
      cases stderr with
      | nil => exact absurd rfl h2
      | cons a l => rfl
    rcases hso : stdout with _ | ⟨a, l⟩
    · simp [combineOutput, h2', joinWith]
    · simp only [combineOutput, h2', Bool.false_eq_true, if_false,
        List.isEmpty_cons, List.cons_append, List.nil_append,
        List.isEmpty_nil, joinWith]
      exact ⟨(a :: l) ++ ['\n'], by simp⟩
  · intro hmax
    rw [hout]
    split
    · intro hc
      have := congrArg List.length hc
      simp only [List.length_take, List.length_nil] at this
      omega
    · exact combineOutput_ne_nil stdout stderr

/-- Witness for `execute_output_combination` at a concrete input: a no-op
command with both streams empty yields the placeholder, and under the
default 200000-byte ceiling the response output is nonempty. -/
theorem execute_output_combination_witness :
    combineOutput [] [] = "<no output>".data
    ∧ (execute ["home", "user"] ⟨120, 200000, []⟩ "true".data
        (fun _ => .completed [] [] 0)).output ≠ [] := by
  have h := execute_output_combination ["home", "user"] ⟨120, 200000, []⟩
      "true".data (fun _ => .completed [] [] 0) rfl [] [] 0 rfl
  exact ⟨h.1 rfl rfl, h.2.2.2.2.2 (by decide)⟩

/-- The traversal never emits more than `me` entries. -/
theorem walkGo_le (md me : Nat) (pre : String) (depth : Nat)
    (l : List FTree) (st : List String × Nat) :
    st.2 ≤ me → (walkGo md me pre depth l st).2 ≤ me := by
  induction pre, depth, l, st using walkGo.induct md me with
  | case1 pre depth st =>
    intro h
    rw [walkGo]
    exact h
  | case2 pre depth p rest st hge =>
    intro h
    rw [walkGo]
    simp only [hge, if_true]
    exact h
  | case3 pre depth p rest st hnot st1 st2 ihc1 ihc2 ihc3 ihrest =>
    intro h
    rw [walkGo]
    rw [if_neg hnot]
    apply ihrest
    cases p with
    | file n =>
      show st.2 + 1 ≤ me
      omega
    | dir n cs =>
      show (if depth + 1 > md ∨ (st.1 ++ [pre ++ FTree.name (FTree.dir n cs)], st.2 + 1).2 ≥ me
            then (st.1 ++ [pre ++ FTree.name (FTree.dir n cs)], st.2 + 1)
            else walkGo md me (pre ++ "  ") (depth + 1) (sortTrees cs)
              (st.1 ++ [pre ++ FTree.name (FTree.dir n cs)], st.2 + 1)).2 ≤ me
      split
      · show st.2 + 1 ≤ me
        omega
      · apply ihc3 cs
        · assumption
        · show st.2 + 1 ≤ me
          omega

/-- Unfolding `countGo` on the empty sibling list. -/
theorem countGo_nil (md depth : Nat) : countGo md depth [] = 0 := by
  rw [countGo.eq_def]

/-- Unfolding `countGo` on a leading file. -/
theorem countGo_file (md depth : Nat) (n : String) (rest : List FTree) :
    countGo md depth (FTree.file n :: rest) = 1 + 0 + countGo md depth rest := by
  rw [countGo.eq_def]

/-- Unfolding `countGo` on a leading directory below the depth limit. -/
theorem countGo_dir_deep (md depth : Nat) (n : String) (cs rest : List FTree)
    (h : depth + 1 > md) :
    countGo md depth (FTree.dir n cs :: rest)
      = 1 + 0 + countGo md depth rest := by
  rw [countGo.eq_def]
  simp [h]

/-- Unfolding `countGo` on a leading directory within the depth limit. -/
theorem countGo_dir (md depth : Nat) (n : String) (cs rest : List FTree)
    (h : ¬ depth + 1 > md) :
    countGo md depth (FTree.dir n cs :: rest)
      = 1 + countGo md (depth + 1) (sortTrees cs) + countGo md depth rest := by
  rw [countGo.eq_def]
  simp [h]

/-- Every nonempty sibling list contributes at least one listable entry. -/
theorem countGo_cons_pos (md depth : Nat) (p : FTree) (rest : List FTree) :
    1 ≤ countGo md depth (p :: rest) := by
  cases p with
  | file n =>
    rw [countGo_file]
    omega
  | dir n cs =>
    by_cases hd : depth + 1 > md
    · rw [countGo_dir_deep md depth n cs rest hd]
      omega
    · rw [countGo_dir md depth n cs rest hd]
      omega

/-- When the entry budget covers every listable entry, the traversal emits
exactly the listable count (nothing is omitted). -/
theorem walkGo_count (md me : Nat) (pre : String) (depth : Nat)
    (l : List FTree) (st : List String × Nat) :
    st.2 + countGo md depth l ≤ me →
    (walkGo md me pre depth l st).2 = st.2 + countGo md depth l := by
  induction pre, depth, l, st using walkGo.induct md me with
  | case1 pre depth st =>
    intro h
    rw [walkGo, countGo_nil]
    omega
  | case2 pre depth p rest st hge =>
    intro h
    have hpos := countGo_cons_pos md depth p rest
    omega
  | case3 pre depth p rest st hnot st1 st2 ihc1 ihc2 ihc3 ihrest =>
    intro h
    rw [walkGo, if_neg hnot]
    unfold_let st2 st1 at ihrest
    cases p with
    | file n =>
      dsimp only at ihrest ⊢
      rw [countGo_file] at h ⊢
      have hr := ihrest (by omega)
      rw [hr]
      omega
    | dir n cs =>
      dsimp only at ihrest ihc3 ⊢
      by_cases hd : depth + 1 > md
      · rw [countGo_dir_deep md depth n cs rest hd] at h ⊢
        rw [dif_pos (Or.inl hd)] at ihrest
        rw [if_pos (Or.inl hd)]
        have hr := ihrest (by omega)
        rw [hr]
        omega
      · rw [countGo_dir md depth n cs rest hd] at h ⊢
        by_cases hme2 : st.2 + 1 ≥ me
        · rw [dif_pos (Or.inr hme2)] at ihrest
          rw [if_pos (Or.inr hme2)]
          have hr := ihrest (by omega)
          rw [hr]
          omega
        · rw [dif_neg (not_or.mpr ⟨hd, hme2⟩)] at ihrest
          rw [if_neg (not_or.mpr ⟨hd, hme2⟩)]
          have hc := ihc3 cs (not_or.mpr ⟨hd, hme2⟩) (by omega)
          rw [hc] at ihrest
          have hr := ihrest (by omega)
          rw [hr]
          omega

/-- Claim C10: `tree_view_workspace` reports `truncated = true` exactly when
the number of emitted entries equals `max_entries`; consequently a tree with
exactly `max_entries` listable entries is reported as truncated even though
the traversal completed without omitting anything (the emitted count equals
the listable count). -/
theorem tree_view_workspace_truncated_iff
    (cwd : List String) (content : Option (List FTree)) (vp : String)
    (md me : Nat) (res : TreeResult)
    (h : tree_view_workspace cwd content vp md me = .ok res) :
    (res.truncated = true ↔ res.entries = me)
    ∧ (∀ children, content = some children → countListable md children = me →
        res.truncated = true ∧ res.entries = countListable md children) := by
  unfold tree_view_workspace at h
  cases hres : resolve_workspace_path cwd vp with
  | error e =>
    rw [hres] at h
    exact Except.noConfusion h
  | ok root =>
    rw [hres] at h
    cases content with
    | none => exact Except.noConfusion h
    | some children =>
      dsimp only at h
      cases h
      constructor
      · by_cases hme : 0 ≥ me
        · rw [if_pos (Or.inr hme)]
          simp only [TreeResult.truncated, TreeResult.entries, decide_eq_true_eq]
          omega
        · rw [if_neg (not_or.mpr ⟨by omega, hme⟩)]
          have hle := walkGo_le md me "" 0 (sortTrees children) ([], 0)
            (Nat.zero_le me)
          simp only [TreeResult.truncated, TreeResult.entries, decide_eq_true_eq]
          omega
      · intro children' hcc hcount
        cases hcc
        unfold countListable at hcount ⊢
        by_cases hme : 0 ≥ me
        · rw [if_pos (Or.inr hme)]
          simp only [TreeResult.truncated, TreeResult.entries, decide_eq_true_eq]
          omega
        · rw [if_neg (not_or.mpr ⟨by omega, hme⟩)]
          have hcnt := walkGo_count md me "" 0 (sortTrees children) ([], 0)
            (by
              show 0 + countGo md 0 (sortTrees children) ≤ me
              omega)
          simp only [TreeResult.truncated, TreeResult.entries, decide_eq_true_eq]
          constructor
          · rw [hcnt]
            omega
          · rw [hcnt]
            omega

/-- Witness for `tree_view_workspace_truncated_iff` at a concrete input:
two files with an entry limit of exactly 2. -/
theorem tree_view_workspace_truncated_iff_witness :
    tree_view_workspace cwd0 (some [FTree.file "a.txt", FTree.file "b.txt"])
        "/workspace" 4 2
      = .ok ⟨"/workspace", 4, 2, "a.txt\nb.txt", true⟩
    ∧ (TreeResult.mk "/workspace" 4 2 "a.txt\nb.txt" true).truncated = true
    ∧ (TreeResult.mk "/workspace" 4 2 "a.txt\nb.txt" true).entries
        = countListable 4 [FTree.file "a.txt", FTree.file "b.txt"] := by
  have hsort : sortTrees [FTree.file "a.txt", FTree.file "b.txt"]
      = [FTree.file "a.txt", FTree.file "b.txt"] := by
    simp [sortTrees, insertTree, FTree.name]
    decide
  have hwalk : walkGo 4 2 "" 0 [FTree.file "a.txt", FTree.file "b.txt"] ([], 0)
      = (["a.txt", "b.txt"], 2) := by
    simp [walkGo, FTree.name]
  have hcount : countListable 4 [FTree.file "a.txt", FTree.file "b.txt"] = 2 := by
    unfold countListable
    rw [hsort, countGo_file, countGo_file, countGo_nil]
  have heq : tree_view_workspace cwd0
      (some [FTree.file "a.txt", FTree.file "b.txt"]) "/workspace" 4 2
      = .ok ⟨"/workspace", 4, 2, "a.txt\nb.txt", true⟩ := by
    unfold tree_view_workspace
    rw [show resolve_workspace_path cwd0 "/workspace"
      = .ok (WORKSPACE_ROOT cwd0) from rfl]
    dsimp only
    rw [if_neg (by decide), hsort, hwalk]
    rfl
  have h := tree_view_workspace_truncated_iff cwd0
      (some [FTree.file "a.txt", FTree.file "b.txt"]) "/workspace" 4 2
      ⟨"/workspace", 4, 2, "a.txt\nb.txt", true⟩ heq
  have h2 := h.2 [FTree.file "a.txt", FTree.file "b.txt"] rfl hcount
  exact ⟨heq, h2.1, h2.2⟩

/-- Unfolding `pyReplaceGo` on the empty subject. -/
theorem pyReplaceGo_nil (c : Char) (p' r : List Char) :
    pyReplaceGo c p' r [] = [] := by
  rw [pyReplaceGo.eq_def]

/-- Unfolding `pyReplaceGo` when the pattern does not match at the head. -/
theorem pyReplaceGo_miss (c : Char) (p' r : List Char) (d : Char)
    (rest : List Char) (h : (c :: p').isPrefixOf (d :: rest) = false) :
    pyReplaceGo c p' r (d :: rest) = d :: pyReplaceGo c p' r rest := by
  rw [pyReplaceGo.eq_def]
  dsimp only
  rw [h]

/-- Unfolding `pyReplaceGo` when the pattern matches at the head: the
occurrence is consumed and the replacement emitted. -/
theorem pyReplaceGo_hit (c : Char) (p' r u : List Char) :
    pyReplaceGo c p' r ((c :: p') ++ u) = r ++ pyReplaceGo c p' r u := by
  have hpre : (c :: p').isPrefixOf (c :: (p' ++ u)) = true :=
    prefixOf_bridge.mpr ⟨u, rfl⟩
  rw [List.cons_append, pyReplaceGo.eq_def]
  dsimp only
  rw [hpre, List.drop_left]

/-- `str.replace` leaves a subject without any occurrence of the (nonempty)
pattern unchanged. -/
theorem pyReplaceGo_noOcc (c : Char) (p' r s : List Char)
    (h : occursIn (c :: p') s = false) :
    pyReplaceGo c p' r s = s := by
  induction s with
  | nil => exact pyReplaceGo_nil c p' r
  | cons d rest ih =>
    simp only [occursIn, Bool.or_eq_false_iff] at h
    rw [pyReplaceGo_miss c p' r d rest h.1, ih h.2]

/-- The replacement scan passes unchanged over a left part `a` none of whose
nonempty suffixes starts an occurrence of the pattern (also not one running
over into `u`). -/
theorem pyReplaceGo_passThrough (c : Char) (p' r u : List Char)
    (a : List Char)
    (hcond : ∀ a' ∈ a.tails, a' ≠ [] →
      (c :: p').isPrefixOf (a' ++ u) = false) :
    pyReplaceGo c p' r (a ++ u) = a ++ pyReplaceGo c p' r u := by
  induction a with
  | nil => simp only [List.nil_append]
  | cons d a' ih =>
    have h0 : (c :: p').isPrefixOf (d :: (a' ++ u)) = false := by
      have h1 := hcond (d :: a')
        ((List.mem_tails _ _).mpr (List.suffix_refl _)) (by simp)
      rwa [List.cons_append] at h1
    simp only [List.cons_append]
    rw [pyReplaceGo_miss c p' r d (a' ++ u) h0]
    rw [ih (fun x hx hne => hcond x ((List.mem_tails _ _).mpr
      (((List.mem_tails _ _).mp hx).trans (List.suffix_cons d a'))) hne)]

/-- `occursIn` finds exactly the occurrences: some suffix of `s` starts with
the pattern. -/
theorem occursIn_true_iff (p s : List Char) :
    occursIn p s = true ↔ ∃ t, t <:+ s ∧ p.isPrefixOf t = true := by
  induction s with
  | nil => cases p <;> simp [occursIn, List.suffix_nil, List.isPrefixOf,
      List.isEmpty]
  | cons d rest ih =>
    simp only [occursIn]
    rw [Bool.or_eq_true]
    constructor
    · intro h
      rcases h with h1 | h1
      · exact ⟨d :: rest, List.suffix_refl _, h1⟩
      · obtain ⟨t, hts, htp⟩ := ih.mp h1
        exact ⟨t, hts.trans (List.suffix_cons d rest), htp⟩
    · rintro ⟨t, hts, htp⟩
      rcases List.suffix_cons_iff.mp hts with h1 | h1
      · subst h1
        exact Or.inl htp
      · exact Or.inr (ih.mpr ⟨t, h1, htp⟩)

/-- Negation of `occursIn_true_iff`: no suffix of `s` starts with `p`. -/
theorem occursIn_false_iff (p s : List Char) :
    occursIn p s = false ↔ ∀ t, t <:+ s → p.isPrefixOf t = false := by
  constructor
  · intro h t hts
    cases hpt : p.isPrefixOf t
    · rfl
    · exact absurd ((occursIn_true_iff p s).mpr ⟨t, hts, hpt⟩)
        (by simp [h])
  · intro h
    cases hocc : occursIn p s
    · rfl
    · obtain ⟨t, hts, htp⟩ := (occursIn_true_iff p s).mp hocc
      rw [h t hts] at htp
      exact Bool.noConfusion htp

/-- A suffix of a concatenation is a suffix of the right part or extends a
suffix of the left part over the whole right part. -/
theorem suffix_append_cases {α : Type _} {t a b : List α}
    (h : t <:+ a ++ b) :
    t <:+ b ∨ ∃ a', a' <:+ a ∧ t = a' ++ b := by
  obtain ⟨u, hu⟩ := h
  rcases List.append_eq_append_iff.mp hu with ⟨x, hx1, hx2⟩ | ⟨y, hy1, hy2⟩
  · exact Or.inr ⟨x, ⟨u, hx1.symm⟩, hx2⟩
  · exact Or.inl ⟨y, hy2.symm⟩

/-- A prefix of a concatenation stays inside the left part or covers it and
continues as a prefix of the right part. -/
theorem prefix_append_cases {α : Type _} {p a b : List α}
    (h : p <+: a ++ b) :
    p <+: a ∨ (a <+: p ∧ p.drop a.length <+: b) := by
  obtain ⟨u, hu⟩ := h
  rcases List.append_eq_append_iff.mp hu with ⟨x, hx1, hx2⟩ | ⟨y, hy1, hy2⟩
  · exact Or.inl ⟨x, hx1.symm⟩
  · refine Or.inr ⟨⟨y, hy1.symm⟩, ?_⟩
    rw [hy1, List.drop_left]
    exact ⟨u, hy2.symm⟩

/-- If `v` occurs neither in `A`, nor in `r`, nor in `B`, no nonempty suffix
of `A` starts `v`, and no proper tail of `v` is a prefix of `B`, then `v`
does not occur in `A ++ (r ++ B)` at all. -/
theorem occursIn_sandwich_false (v A r B : List Char)
    (hr : occursIn v r = false)
    (hA2 : occursIn v A = false)
    (hB : occursIn v B = false)
    (hA : ∀ a' ∈ A.tails, a' ≠ [] → a'.isPrefixOf v = false)
    (hvB : ∀ k, k < v.length → (v.drop k).isPrefixOf B = false) :
    occursIn v (A ++ (r ++ B)) = false := by
  rw [occursIn_false_iff]
  intro t hts
  cases hvp : v.isPrefixOf t
  · rfl
  · exfalso
    have hvt : v <+: t := prefixOf_bridge.mp hvp
    rcases suffix_append_cases hts with h1 | ⟨a', ha', rfl⟩
    · rcases suffix_append_cases h1 with h2 | ⟨r'', hr'', rfl⟩
      · exact absurd ((occursIn_true_iff v B).mpr ⟨t, h2, hvp⟩)
          (by simp [hB])
      · rcases prefix_append_cases hvt with h3 | ⟨h3, h4⟩
        · exact absurd ((occursIn_true_iff v r).mpr
            ⟨r'', hr'', prefixOf_bridge.mpr h3⟩) (by simp [hr])
        · by_cases hlen : r''.length < v.length
          · exact absurd (prefixOf_bridge.mpr h4)
              (by simp [hvB r''.length hlen])
          · have hrv : r'' = v := h3.eq_of_length_le (by omega)
            subst hrv
            exact absurd ((occursIn_true_iff _ r).mpr
              ⟨_, hr'', prefixOf_bridge.mpr (List.prefix_refl _)⟩)
              (by simp [hr])
    · by_cases hnil : a' = []
      · subst hnil
        rw [List.nil_append] at hvt
        rcases prefix_append_cases hvt with h3 | ⟨h3, h4⟩
        · exact absurd ((occursIn_true_iff v r).mpr
            ⟨r, List.suffix_refl r, prefixOf_bridge.mpr h3⟩)
            (by simp [hr])
        · by_cases hlen : r.length < v.length
          · exact absurd (prefixOf_bridge.mpr h4)
              (by simp [hvB r.length hlen])
          · have hrv : r = v := h3.eq_of_length_le (by omega)
            subst hrv
            exact absurd ((occursIn_true_iff _ _).mpr
              ⟨_, List.suffix_refl r, prefixOf_bridge.mpr
                (List.prefix_refl _)⟩) (by simp [hr])
      · rcases prefix_append_cases hvt with h3 | ⟨h3, h4⟩
        · exact absurd ((occursIn_true_iff v A).mpr
            ⟨a', ha', prefixOf_bridge.mpr h3⟩) (by simp [hA2])
        · exact absurd (prefixOf_bridge.mpr h3)
            (by simp [hA a' ((List.mem_tails _ _).mpr ha') hnil])

/-- `str.replace` on a subject without the pattern is the identity. -/
theorem pyReplace_noOccurrence (c : Char) (p' r s : List Char)
    (h : occursIn (c :: p') s = false) :
    pyReplace s (c :: p') r = s :=
  pyReplaceGo_noOcc c p' r s h

/-- `str.replace` on a subject with exactly one occurrence of the pattern,
written `A ++ pattern ++ B`, replaces that occurrence. -/
theorem pyReplace_single (c : Char) (p' r A B : List Char)
    (hA : ∀ a' ∈ A.tails, a' ≠ [] →
      (c :: p').isPrefixOf (a' ++ ((c :: p') ++ B)) = false)
    (hB : occursIn (c :: p') B = false) :
    pyReplace (A ++ ((c :: p') ++ B)) (c :: p') r = A ++ (r ++ B) := by
  show pyReplaceGo c p' r (A ++ ((c :: p') ++ B)) = A ++ (r ++ B)
  rw [pyReplaceGo_passThrough c p' r ((c :: p') ++ B) A hA,
    pyReplaceGo_hit c p' r B, pyReplaceGo_noOcc c p' r B hB]

/-- `_apply_path_aliases` with one alias is one `applyAlias` step. -/
theorem apply_path_aliases_single_alias (cwd : List String)
    (al : String × String) (s : List Char) :
    apply_path_aliases cwd [al] s = applyAlias cwd s al := rfl

/-- The two replacement passes of one `applyAlias` step for the alias
`("/workspace", d)`, with the pattern spelled as an explicit cons. -/
theorem applyAlias_workspace_eq (cwd : List String) (d : String)
    (s : List Char) :
    applyAlias cwd s ("/workspace", d)
      = pyReplace
          (pyReplace s ('/' :: "workspace/".data)
            (rstripSlashes (renderPath (pathResolve cwd d)).data ++ ['/']))
          ('/' :: "workspace".data)
          (rstripSlashes (renderPath (pathResolve cwd d)).data) := rfl

/-- Claim C4 (amended): each alias is applied as two sequential global
textual replacements, the `prefix/` form first and the bare form second.
Provided the resolved real path does not itself contain the virtual prefix
as a substring, `cat /workspace/f.txt` under the alias
`("/workspace", d)` becomes `cat <real_dir>/f.txt` and the bare-form
command `ls /workspace` becomes `ls <real_dir>`. -/
theorem apply_path_aliases_rewrites_example (cwd : List String) (d : String)
    (h : occursIn "/workspace".data
      (rstripSlashes (renderPath (pathResolve cwd d)).data) = false) :
    apply_path_aliases cwd [("/workspace", d)] "cat /workspace/f.txt".data
      = "cat ".data ++ (rstripSlashes (renderPath (pathResolve cwd d)).data
          ++ "/f.txt".data)
    ∧ apply_path_aliases cwd [("/workspace", d)] "ls /workspace".data
      = "ls ".data ++ rstripSlashes (renderPath (pathResolve cwd d)).data := by
  have hv : ("/workspace".data : List Char) = '/' :: "workspace".data := rfl
  rw [hv] at h
  constructor
  · rw [apply_path_aliases_single_alias, applyAlias_workspace_eq]
    rw [show ("cat /workspace/f.txt".data : List Char)
      = "cat ".data ++ (('/' :: "workspace/".data) ++ "f.txt".data)
      from rfl]
    rw [pyReplace_single '/' "workspace/".data
      (rstripSlashes (renderPath (pathResolve cwd d)).data ++ ['/'])
      "cat ".data "f.txt".data (by decide) (by decide)]
    rw [show ∀ x : List Char,
        (x ++ ['/']) ++ "f.txt".data = x ++ "/f.txt".data
      from fun x => by rw [List.append_assoc]; rfl]
    rw [pyReplace_noOccurrence '/' "workspace".data
      (rstripSlashes (renderPath (pathResolve cwd d)).data)
      ("cat ".data ++ (rstripSlashes (renderPath (pathResolve cwd d)).data
        ++ "/f.txt".data))
      (occursIn_sandwich_false ('/' :: "workspace".data) "cat ".data
        (rstripSlashes (renderPath (pathResolve cwd d)).data) "/f.txt".data
        h (by decide) (by decide) (by decide) (by decide))]
  · rw [apply_path_aliases_single_alias, applyAlias_workspace_eq]
    rw [pyReplace_noOccurrence '/' "workspace/".data
      (rstripSlashes (renderPath (pathResolve cwd d)).data ++ ['/'])
      "ls /workspace".data (by decide)]
    rw [show ("ls /workspace".data : List Char)
      = "ls ".data ++ (('/' :: "workspace".data) ++ ([] : List Char))
      from rfl]
    rw [pyReplace_single '/' "workspace".data
      (rstripSlashes (renderPath (pathResolve cwd d)).data)
      "ls ".data [] (by decide) (by decide)]
    rw [List.append_nil]

/-- The amended C4 statement at the concrete alias
`("/workspace", "/data/ws")` in working directory `/home/user`. -/
theorem apply_path_aliases_rewrites_example_witness :
    occursIn "/workspace".data
        (rstripSlashes
          (renderPath (pathResolve ["home", "user"] "/data/ws")).data)
      = false
    ∧ apply_path_aliases ["home", "user"] [("/workspace", "/data/ws")]
        "cat /workspace/f.txt".data = "cat /data/ws/f.txt".data
    ∧ apply_path_aliases ["home", "user"] [("/workspace", "/data/ws")]
        "ls /workspace".data = "ls /data/ws".data := by
  have h : occursIn "/workspace".data
      (rstripSlashes
        (renderPath (pathResolve ["home", "user"] "/data/ws")).data)
      = false := by decide
  have hm := apply_path_aliases_rewrites_example ["home", "user"] "/data/ws" h
  refine ⟨h, ?_, ?_⟩
  · rw [hm.1]
    decide
  · rw [hm.2]
    decide

/-- Claim C4 counterexample: when the resolved real path itself contains
the virtual prefix as a substring, the second (bare-form) replacement pass
re-rewrites text the first pass already substituted. Under the alias
`("/workspace", "/mnt/workspace")` the command `cat /workspace/f.txt`
becomes `cat /mnt/mnt/workspace/f.txt`, not a command operating on
`/mnt/workspace/f.txt` as the claim promises. -/
theorem alias_rewrite_double_substitution :
    apply_path_aliases ["home", "user"] [("/workspace", "/mnt/workspace")]
        "cat /workspace/f.txt".data = "cat /mnt/mnt/workspace/f.txt".data
    ∧ "cat /mnt/mnt/workspace/f.txt".data
        ≠ "cat /mnt/workspace/f.txt".data := by
  constructor
  · rw [apply_path_aliases_single_alias, applyAlias_workspace_eq]
    rw [show rstripSlashes
        (renderPath (pathResolve ["home", "user"] "/mnt/workspace")).data
      = "/mnt/workspace".data from rfl]
    rw [show ("cat /workspace/f.txt".data : List Char)
      = "cat ".data ++ (('/' :: "workspace/".data) ++ "f.txt".data)
      from rfl]
    rw [pyReplace_single '/' "workspace/".data
      ("/mnt/workspace".data ++ ['/'])
      "cat ".data "f.txt".data (by decide) (by decide)]
    rw [show "cat ".data ++ (("/mnt/workspace".data ++ ['/'])
        ++ "f.txt".data)
      = "cat /mnt".data ++ (('/' :: "workspace".data) ++ "/f.txt".data)
      from by decide]
    rw [pyReplace_single '/' "workspace".data "/mnt/workspace".data
      "cat /mnt".data "/f.txt".data (by decide) (by decide)]
    decide
  · decide
